import Mathlib

/-!
Shallow embedding of the Intcode virtual machine from `src/intcode.rs`
(repository `agubelu/intcode-rs`).

Modelling conventions:
* The Rust integer type `Int = i128` is modelled as the unbounded `Int`
  of Lean; no claim under consideration depends on 128-bit overflow.
* `FxHashMap<Int, Int>` memory is modelled as `Int → Option Int`
  (`none` = key absent).  `VecDeque<Int>` is a `List Int` whose head is
  the front of the deque.
* Rust panics are modelled as `Except Fatal`; each panic site gets its
  own `Fatal` constructor.  Note that `parse_operation` fetches the
  instruction word with the panicking index `self.memory[&self.ip]`,
  whereas parameter values are fetched with the total `read_at`.
* Rust `%` and `/` on `i128` truncate toward zero, hence `Int.tmod` and
  `Int.tdiv`; the `as u8` cast wraps modulo 256, hence `Int.emod _ 256`.
* The `while` loop of `run` is modelled with explicit fuel; running out
  of fuel yields `Except.ok none`.
-/

/-- Result type of `run`, from `enum RunResult`. -/
inductive RunResult where
  | Output (v : Int)
  | Finished
deriving DecidableEq, Repr

/-- One constructor per panic site in `src/intcode.rs`. -/
inductive Fatal where
  | missingInstruction
  | unknownOpcode
  | unknownParamMode
  | emptyInput
  | invalidWriteTarget
  | unexpectedOpcode
deriving DecidableEq, Repr

/-- Parameter modes, from `enum ParamMode` (default is `Position`). -/
inductive ParamMode where
  | position
  | immediate
  | relative
deriving DecidableEq, Repr

instance : Inhabited ParamMode := ⟨ParamMode.position⟩

/-- A decoded parameter, from `struct Param`. -/
structure Param where
  mode : ParamMode
  value : Int
deriving DecidableEq, Repr

instance : Inhabited Param := ⟨⟨ParamMode.position, 0⟩⟩

/-- Machine state, from `struct IntcodeComputer`. -/
structure IntcodeComputer where
  memory : Int → Option Int
  input_queue : List Int
  ip : Int
  rel_base : Int
  is_finished : Bool

namespace IntcodeComputer

/-- Constructor `IntcodeComputer::new`: value at index `i` of the code
is stored at address `i`; everything else is absent. -/
def new (code : List Int) : IntcodeComputer where
  memory := fun a => if 0 ≤ a then code[a.toNat]? else none
  input_queue := []
  ip := 0
  rel_base := 0
  is_finished := false

/-- Public `input`: push the value to the back of the input queue. -/
def input (c : IntcodeComputer) (value : Int) : IntcodeComputer :=
  { c with input_queue := c.input_queue ++ [value] }

/-- Public `read_at`: raw memory read, absent keys read as 0. -/
def read_at (c : IntcodeComputer) (pos : Int) : Int :=
  (c.memory pos).getD 0

/-- Internal `param_value`: resolve a parameter to its value. -/
def param_value (c : IntcodeComputer) (param : Param) : Int :=
  match param.mode with
  | ParamMode.immediate => param.value
  | ParamMode.position => c.read_at param.value
  | ParamMode.relative => c.read_at (param.value + c.rel_base)

/-- Internal `write_to`: resolve the write address of a parameter and
store the value there; immediate mode panics. -/
def write_to (c : IntcodeComputer) (param : Param) (value : Int) :
    Except Fatal IntcodeComputer :=
  match param.mode with
  | ParamMode.immediate => Except.error Fatal.invalidWriteTarget
  | ParamMode.position =>
      Except.ok { c with memory := fun a => if a = param.value then some value else c.memory a }
  | ParamMode.relative =>
      Except.ok { c with memory := fun a => if a = param.value + c.rel_base then some value else c.memory a }

/-- The opcode of an instruction word: `(word % 100) as u8`, where `%`
truncates toward zero and the cast to `u8` wraps modulo 256. -/
def decode_opcode (w : Int) : Int :=
  Int.tmod w 100 % 256

/-- Parameter count per opcode, from the `match` in `parse_operation`;
`none` is the "Unknown opcode" panic. -/
def n_params_of (opcode : Int) : Option Nat :=
  if opcode = 99 then some 0
  else if opcode = 3 ∨ opcode = 4 ∨ opcode = 9 then some 1
  else if opcode = 5 ∨ opcode = 6 then some 2
  else if opcode = 1 ∨ opcode = 2 ∨ opcode = 8 ∨ opcode = 7 then some 3
  else none

/-- One mode digit, from the inner `match` in `parse_operation`;
`none` is the "Unknown param mode" panic. -/
def parse_mode (d : Int) : Option ParamMode :=
  if d = 0 then some ParamMode.position
  else if d = 1 then some ParamMode.immediate
  else if d = 2 then some ParamMode.relative
  else none

/-- The `for i in 0..n_params` loop of `parse_operation`: peel one mode
digit per parameter off `flags` and pair it with the raw value at
`ip + i + 1`.  `k` is the number of parameters still to read, `i` the
index of the next one. -/
def parse_params (c : IntcodeComputer) : Nat → Int → Int → Except Fatal (List Param)
  | 0, _, _ => Except.ok []
  | Nat.succ k, flags, i =>
    match parse_mode (Int.tmod flags 10) with
    | none => Except.error Fatal.unknownParamMode
    | some mode =>
      match parse_params c k (Int.tdiv flags 10) (i + 1) with
      | Except.error e => Except.error e
      | Except.ok rest => Except.ok ({ mode := mode, value := c.read_at (c.ip + i + 1) } :: rest)

/-- Internal `parse_operation`: fetch the word at `ip` (panicking map
index), decode opcode and modes, read the raw parameter values, and
advance `ip` past the instruction. -/
def parse_operation (c : IntcodeComputer) :
    Except Fatal ((Int × List Param) × IntcodeComputer) :=
  match c.memory c.ip with
  | none => Except.error Fatal.missingInstruction
  | some w =>
    match n_params_of (decode_opcode w) with
    | none => Except.error Fatal.unknownOpcode
    | some n =>
      match c.parse_params n (Int.tdiv w 100) 0 with
      | Except.error e => Except.error e
      | Except.ok ps =>
          Except.ok ((decode_opcode w, ps), { c with ip := c.ip + (1 + (n : Int)) })

/-- Opcode 1, `op_add`. -/
def op_add (c : IntcodeComputer) (params : List Param) : Except Fatal IntcodeComputer :=
  c.write_to (params.getD 2 default)
    (c.param_value (params.getD 0 default) + c.param_value (params.getD 1 default))

/-- Opcode 2, `op_mul`. -/
def op_mul (c : IntcodeComputer) (params : List Param) : Except Fatal IntcodeComputer :=
  c.write_to (params.getD 2 default)
    (c.param_value (params.getD 0 default) * c.param_value (params.getD 1 default))

/-- Opcode 3, `op_in`: pop the front of the input queue (panicking when
empty) and write it to the first parameter. -/
def op_in (c : IntcodeComputer) (params : List Param) : Except Fatal IntcodeComputer :=
  match c.input_queue with
  | [] => Except.error Fatal.emptyInput
  | v :: rest => write_to { c with input_queue := rest } (params.getD 0 default) v

/-- Opcode 5, `op_jmp`: jump when the condition value is nonzero. -/
def op_jmp (c : IntcodeComputer) (params : List Param) : IntcodeComputer :=
  if c.param_value (params.getD 0 default) ≠ 0 then
    { c with ip := c.param_value (params.getD 1 default) }
  else c

/-- Opcode 6, `op_jmn`: jump when the condition value is zero. -/
def op_jmn (c : IntcodeComputer) (params : List Param) : IntcodeComputer :=
  if c.param_value (params.getD 0 default) = 0 then
    { c with ip := c.param_value (params.getD 1 default) }
  else c

/-- Opcode 7, `op_lt`. -/
def op_lt (c : IntcodeComputer) (params : List Param) : Except Fatal IntcodeComputer :=
  c.write_to (params.getD 2 default)
    (if c.param_value (params.getD 0 default) < c.param_value (params.getD 1 default) then 1 else 0)

/-- Opcode 8, `op_eq`. -/
def op_eq (c : IntcodeComputer) (params : List Param) : Except Fatal IntcodeComputer :=
  c.write_to (params.getD 2 default)
    (if c.param_value (params.getD 0 default) = c.param_value (params.getD 1 default) then 1 else 0)

/-- Opcode 9, `op_rlb`: adjust the relative base. -/
def op_rlb (c : IntcodeComputer) (params : List Param) : IntcodeComputer :=
  { c with rel_base := c.rel_base + c.param_value (params.getD 0 default) }

/-- One iteration of the `while` loop body of `run`: parse an operation
and dispatch on the opcode.  `some v` in the first component signals an
immediate return with `Output v`. -/
def stepIter (c : IntcodeComputer) : Except Fatal (Option Int × IntcodeComputer) :=
  match c.parse_operation with
  | Except.error e => Except.error e
  | Except.ok ((opcode, params), c1) =>
    if opcode = 1 then (c1.op_add params).map (fun c2 => (none, c2))
    else if opcode = 2 then (c1.op_mul params).map (fun c2 => (none, c2))
    else if opcode = 3 then (c1.op_in params).map (fun c2 => (none, c2))
    else if opcode = 4 then Except.ok (some (c1.param_value (params.getD 0 default)), c1)
    else if opcode = 5 then Except.ok (none, c1.op_jmp params)
    else if opcode = 6 then Except.ok (none, c1.op_jmn params)
    else if opcode = 7 then (c1.op_lt params).map (fun c2 => (none, c2))
    else if opcode = 8 then (c1.op_eq params).map (fun c2 => (none, c2))
    else if opcode = 9 then Except.ok (none, c1.op_rlb params)
    else if opcode = 99 then Except.ok (none, { c1 with is_finished := true })
    else Except.error Fatal.unexpectedOpcode

/-- Public `run`, with explicit fuel for the `while !self.is_finished`
loop.  `ok none` means the fuel ran out; `ok (some (r, c))` is a normal
return with result `r` in state `c`. -/
def run (fuel : Nat) (c : IntcodeComputer) :
    Except Fatal (Option (RunResult × IntcodeComputer)) :=
  if c.is_finished then Except.ok (some (RunResult.Finished, c))
  else
    match fuel with
    | 0 => Except.ok none
    | Nat.succ n =>
      match c.stepIter with
      | Except.error e => Except.error e
      | Except.ok (some v, c1) => Except.ok (some (RunResult.Output v, c1))
      | Except.ok (none, c1) => run n c1

/-! Helper lemmas shared by several claims. -/

lemma except_map_ok {α β γ : Type} (f : β → γ) (e : Except α β) (x : γ)
    (h : e.map f = Except.ok x) : ∃ y, e = Except.ok y ∧ x = f y := by
  cases e with
  | error a => cases h
  | ok y => refine ⟨y, rfl, ?_⟩; cases h; rfl

lemma write_to_fields (c c2 : IntcodeComputer) (p : Param) (v : Int)
    (h : c.write_to p v = Except.ok c2) :
    c2.input_queue = c.input_queue ∧ c2.ip = c.ip ∧ c2.rel_base = c.rel_base ∧
      c2.is_finished = c.is_finished := by
  obtain ⟨mode, value⟩ := p
  cases mode with
  | immediate => cases h
  | position => cases h; exact ⟨rfl, rfl, rfl, rfl⟩
  | relative => cases h; exact ⟨rfl, rfl, rfl, rfl⟩

lemma op_add_fields (c c2 : IntcodeComputer) (ps : List Param)
    (h : c.op_add ps = Except.ok c2) :
    c2.input_queue = c.input_queue ∧ c2.ip = c.ip ∧ c2.rel_base = c.rel_base ∧
      c2.is_finished = c.is_finished :=
  write_to_fields c c2 _ _ h

lemma op_mul_fields (c c2 : IntcodeComputer) (ps : List Param)
    (h : c.op_mul ps = Except.ok c2) :
    c2.input_queue = c.input_queue ∧ c2.ip = c.ip ∧ c2.rel_base = c.rel_base ∧
      c2.is_finished = c.is_finished :=
  write_to_fields c c2 _ _ h

lemma op_lt_fields (c c2 : IntcodeComputer) (ps : List Param)
    (h : c.op_lt ps = Except.ok c2) :
    c2.input_queue = c.input_queue ∧ c2.ip = c.ip ∧ c2.rel_base = c.rel_base ∧
      c2.is_finished = c.is_finished :=
  write_to_fields c c2 _ _ h

lemma op_eq_fields (c c2 : IntcodeComputer) (ps : List Param)
    (h : c.op_eq ps = Except.ok c2) :
    c2.input_queue = c.input_queue ∧ c2.ip = c.ip ∧ c2.rel_base = c.rel_base ∧
      c2.is_finished = c.is_finished :=
  write_to_fields c c2 _ _ h

lemma op_in_fields (c c2 : IntcodeComputer) (ps : List Param)
    (h : c.op_in ps = Except.ok c2) :
    c2.ip = c.ip ∧ c2.rel_base = c.rel_base ∧ c2.is_finished = c.is_finished := by
  unfold op_in at h
  cases hq : c.input_queue with
  | nil => rw [hq] at h; cases h
  | cons v rest =>
    rw [hq] at h
    have := write_to_fields _ c2 _ _ h
    exact ⟨this.2.1, this.2.2.1, this.2.2.2⟩

lemma op_jmp_is_finished (c : IntcodeComputer) (ps : List Param) :
    (c.op_jmp ps).is_finished = c.is_finished := by
  unfold op_jmp; split <;> rfl

lemma op_jmn_is_finished (c : IntcodeComputer) (ps : List Param) :
    (c.op_jmn ps).is_finished = c.is_finished := by
  unfold op_jmn; split <;> rfl

lemma parse_operation_ok (c c1 : IntcodeComputer) (op : Int) (ps : List Param)
    (h : c.parse_operation = Except.ok ((op, ps), c1)) :
    ∃ w n, c.memory c.ip = some w ∧ op = decode_opcode w ∧
      n_params_of op = some n ∧
      c.parse_params n (Int.tdiv w 100) 0 = Except.ok ps ∧
      c1 = { c with ip := c.ip + (1 + (n : Int)) } := by
  unfold parse_operation at h
  split at h
  · cases h
  next w hw =>
    split at h
    · cases h
    next n hn =>
      split at h
      · cases h
      next ps2 hps =>
        simp only [Except.ok.injEq, Prod.mk.injEq] at h
        obtain ⟨⟨h1, h2⟩, h3⟩ := h
        subst h1; subst h2; subst h3
        exact ⟨w, n, hw, rfl, hn, hps, rfl⟩

lemma run_of_finished (c : IntcodeComputer) (fuel : Nat) (h : c.is_finished = true) :
    run fuel c = Except.ok (some (RunResult.Finished, c)) := by
  unfold run; rw [h]; simp

set_option maxHeartbeats 2000000 in
lemma stepIter_finished_mono (c c2 : IntcodeComputer) (o : Option Int)
    (h : c.stepIter = Except.ok (o, c2)) (hf : c.is_finished = true) :
    c2.is_finished = true := by
  unfold stepIter at h
  split at h
  · cases h
  next op ps c1 hp =>
    obtain ⟨w, n, hw, hop, hn, hps, hc1eq⟩ := parse_operation_ok c c1 op ps hp
    have hc1 : c1.is_finished = true := by rw [hc1eq]; exact hf
    split at h
    · obtain ⟨y, hy, hxy⟩ := except_map_ok _ _ _ h
      cases hxy; rw [(op_add_fields _ _ _ hy).2.2.2]; exact hc1
    split at h
    · obtain ⟨y, hy, hxy⟩ := except_map_ok _ _ _ h
      cases hxy; rw [(op_mul_fields _ _ _ hy).2.2.2]; exact hc1
    split at h
    · obtain ⟨y, hy, hxy⟩ := except_map_ok _ _ _ h
      cases hxy; rw [(op_in_fields _ _ _ hy).2.2]; exact hc1
    split at h
    · cases h; exact hc1
    split at h
    · cases h; rw [op_jmp_is_finished]; exact hc1
    split at h
    · cases h; rw [op_jmn_is_finished]; exact hc1
    split at h
    · obtain ⟨y, hy, hxy⟩ := except_map_ok _ _ _ h
      cases hxy; rw [(op_lt_fields _ _ _ hy).2.2.2]; exact hc1
    split at h
    · obtain ⟨y, hy, hxy⟩ := except_map_ok _ _ _ h
      cases hxy; rw [(op_eq_fields _ _ _ hy).2.2.2]; exact hc1
    split at h
    · cases h; exact hc1
    split at h
    · cases h; rfl
    cases h

lemma parse_operation_of_missing (c : IntcodeComputer) (h : c.memory c.ip = none) :
    c.parse_operation = Except.error Fatal.missingInstruction := by
  unfold parse_operation; rw [h]

lemma stepIter_of_parse_error (c : IntcodeComputer) (e : Fatal)
    (h : c.parse_operation = Except.error e) : c.stepIter = Except.error e := by
  unfold stepIter; rw [h]

lemma run_succ (c : IntcodeComputer) (fuel : Nat) (hf : c.is_finished = false) :
    run (fuel + 1) c =
      match c.stepIter with
      | Except.error e => Except.error e
      | Except.ok (some v, c1) => Except.ok (some (RunResult.Output v, c1))
      | Except.ok (none, c1) => run fuel c1 := by
  rw [run, hf]
  simp

/-- Claim C3: once halted, halting is permanent — a `run` call on a
halted engine returns the completion signal immediately with the state
(and hence memory, instruction pointer, relative base and input queue)
completely unchanged, and no loop iteration (instruction) of the
machine can take `is_finished` from `true` back to `false`. -/
theorem claim_C3 :
    (∀ (c : IntcodeComputer) (fuel : Nat), c.is_finished = true →
       run fuel c = Except.ok (some (RunResult.Finished, c))) ∧
    (∀ (c : IntcodeComputer) (o : Option Int) (c2 : IntcodeComputer),
       c.stepIter = Except.ok (o, c2) → c.is_finished = true →
       c2.is_finished = true) :=
  ⟨fun c fuel h => run_of_finished c fuel h,
   fun c o c2 h hf => stepIter_finished_mono c c2 o h hf⟩

/-- Witness for C3 at a concrete halted state. -/
theorem claim_C3_witness :
    run 5 { memory := fun _ => none, input_queue := [], ip := 0,
            rel_base := 0, is_finished := true }
      = Except.ok (some (RunResult.Finished,
          { memory := fun _ => none, input_queue := [], ip := 0,
            rel_base := 0, is_finished := true })) :=
  claim_C3.1 _ 5 rfl

/-- Claim C6: write targets resolve with the same address rules as
value resolution (position: the literal is the address; relative:
literal plus relative base), and an immediate-mode write target is the
fatal `InvalidWriteTargetError`; a successful write stores the value at
exactly that address and changes nothing else. -/
theorem claim_C6 (c : IntcodeComputer) (p : Param) (v : Int) :
    (p.mode = ParamMode.immediate →
       c.write_to p v = Except.error Fatal.invalidWriteTarget) ∧
    (p.mode = ParamMode.position →
       c.write_to p v = Except.ok { c with
         memory := fun a => if a = p.value then some v else c.memory a } ∧
       c.param_value p = c.read_at p.value) ∧
    (p.mode = ParamMode.relative →
       c.write_to p v = Except.ok { c with
         memory := fun a => if a = p.value + c.rel_base then some v else c.memory a } ∧
       c.param_value p = c.read_at (p.value + c.rel_base)) := by
  obtain ⟨mode, value⟩ := p
  cases mode <;> refine ⟨fun h => ?_, fun h => ⟨?_, ?_⟩, fun h => ⟨?_, ?_⟩⟩ <;>
    first
      | rfl
      | simp at h

/-- Witness for C6 at a concrete immediate-mode parameter. -/
theorem claim_C6_witness :
    (IntcodeComputer.new [99]).write_to ⟨ParamMode.immediate, 5⟩ 7
      = Except.error Fatal.invalidWriteTarget :=
  (claim_C6 (IntcodeComputer.new [99]) ⟨ParamMode.immediate, 5⟩ 7).1 rfl

/-- Claim C7: the input queue is strictly FIFO — `input` appends to the
back (touching nothing else and always succeeding), an input
instruction pops exactly the front value and hands it to `write_to`
with the queue shortened by that one value, and an input instruction on
an empty queue is the fatal `EmptyInputError`, not a suspension. -/
theorem claim_C7 :
    (∀ (c : IntcodeComputer) (v : Int),
       (c.input v).input_queue = c.input_queue ++ [v] ∧
       (c.input v).memory = c.memory ∧ (c.input v).ip = c.ip ∧
       (c.input v).rel_base = c.rel_base ∧
       (c.input v).is_finished = c.is_finished) ∧
    (∀ (c : IntcodeComputer) (ps : List Param), c.input_queue = [] →
       c.op_in ps = Except.error Fatal.emptyInput) ∧
    (∀ (c : IntcodeComputer) (ps : List Param) (v : Int) (rest : List Int),
       c.input_queue = v :: rest →
       c.op_in ps = write_to { c with input_queue := rest }
         (ps.getD 0 default) v) := by
  refine ⟨fun c v => ⟨rfl, rfl, rfl, rfl, rfl⟩, fun c ps h => ?_, fun c ps v rest h => ?_⟩
  · unfold op_in; rw [h]
  · unfold op_in; rw [h]

/-- Witness for C7: the empty-queue and front-consumption cases at
concrete states. -/
theorem claim_C7_witness :
    (IntcodeComputer.new [3, 0, 99]).op_in [⟨ParamMode.position, 0⟩]
        = Except.error Fatal.emptyInput ∧
    ((IntcodeComputer.new [3, 0, 99]).input 42).op_in [⟨ParamMode.position, 0⟩]
        = write_to { (IntcodeComputer.new [3, 0, 99]).input 42 with input_queue := [] }
            ⟨ParamMode.position, 0⟩ 42 :=
  ⟨claim_C7.2.1 (IntcodeComputer.new [3, 0, 99]) [⟨ParamMode.position, 0⟩] rfl,
   claim_C7.2.2 ((IntcodeComputer.new [3, 0, 99]).input 42)
     [⟨ParamMode.position, 0⟩] 42 [] rfl⟩

/-- Claim C10: the engine is deterministic — two instances agreeing on
memory, input queue, instruction pointer, relative base and halted
status produce the same `run` outcome (same output or completion, same
final states); `run` depends on nothing outside the engine state. -/
theorem claim_C10 (c1 c2 : IntcodeComputer) (fuel : Nat)
    (hm : c1.memory = c2.memory) (hq : c1.input_queue = c2.input_queue)
    (hip : c1.ip = c2.ip) (hrb : c1.rel_base = c2.rel_base)
    (hf : c1.is_finished = c2.is_finished) :
    run fuel c1 = run fuel c2 := by
  obtain ⟨m1, q1, i1, r1, f1⟩ := c1
  obtain ⟨m2, q2, i2, r2, f2⟩ := c2
  cases hm; cases hq; cases hip; cases hrb; cases hf; rfl

/-- Witness for C10 at two concrete (identical) states. -/
theorem claim_C10_witness :
    run 3 (IntcodeComputer.new [99]) = run 3 (IntcodeComputer.new [99]) :=
  claim_C10 (IntcodeComputer.new [99]) (IntcodeComputer.new [99]) 3 rfl rfl rfl rfl rfl

/-- Counterexample to claim C1 as stated: the program `1105,1,5,99`
jumps to address 5, which was never written; `read_at 5` does read 0,
but the instruction-word fetch inside `run` then fails with the
missing-key panic instead of reading 0. -/
theorem claim_C1_counterexample :
    (IntcodeComputer.new [1105, 1, 5, 99]).read_at 5 = 0 ∧
    run 2 (IntcodeComputer.new [1105, 1, 5, 99])
      = Except.error Fatal.missingInstruction :=
  ⟨rfl, rfl⟩

/-- Claim C1 as amended: the public `read_at` never fails and yields 0
for any address never written (in particular any address outside the
initial program), but the instruction-word fetch performed at step 1 of
the fetch-decode cycle inside `run` is a direct map index that fails
(the missing-key panic) when the instruction-pointer address was never
written, rather than reading 0. -/
theorem claim_C1_amended :
    (∀ (c : IntcodeComputer) (p : Int), c.memory p = none → c.read_at p = 0) ∧
    (∀ (code : List Int) (p : Int), p < 0 ∨ (code.length : Int) ≤ p →
       (IntcodeComputer.new code).read_at p = 0) ∧
    (∀ c : IntcodeComputer, c.memory c.ip = none →
       c.parse_operation = Except.error Fatal.missingInstruction) ∧
    (∀ (c : IntcodeComputer) (fuel : Nat), c.is_finished = false →
       c.memory c.ip = none →
       run (fuel + 1) c = Except.error Fatal.missingInstruction) := by
  refine ⟨fun c p h => ?_, fun code p h => ?_, fun c h => parse_operation_of_missing c h,
    fun c fuel hf h => ?_⟩
  · unfold read_at; rw [h]; rfl
  · unfold read_at new
    show (if 0 ≤ p then code[p.toNat]? else none).getD 0 = 0
    rcases h with h | h
    · rw [if_neg (by omega)]; rfl
    · have h0 : 0 ≤ p := le_trans (Int.natCast_nonneg _) h
      rw [if_pos h0, List.getElem?_eq_none (by omega)]
      rfl
  · rw [run_succ c fuel hf,
      stepIter_of_parse_error c Fatal.missingInstruction (parse_operation_of_missing c h)]

/-- Witness for the amended C1: the default-zero read and the failing
fetch at concrete states. -/
theorem claim_C1_amended_witness :
    (IntcodeComputer.new [99]).read_at 17 = 0 ∧
    run 1 (IntcodeComputer.new []) = Except.error Fatal.missingInstruction :=
  ⟨claim_C1_amended.2.1 [99] 17 (Or.inr (by norm_num)),
   claim_C1_amended.2.2.2 (IntcodeComputer.new []) 0 rfl rfl⟩

/-- Claim C4: when `run` executes an output instruction it returns
immediately with the resolved output value, and the state at return is
exactly the post-decode state: the instruction pointer has advanced
past the opcode and its one parameter (by 2), while memory, relative
base, input queue and the running status are untouched, ready for a
later `run` to resume. -/
theorem claim_C4 (c c1 : IntcodeComputer) (ps : List Param) (fuel : Nat)
    (hf : c.is_finished = false)
    (hp : c.parse_operation = Except.ok ((4, ps), c1)) :
    run (fuel + 1) c
      = Except.ok (some (RunResult.Output (c1.param_value (ps.getD 0 default)), c1)) ∧
    c1.memory = c.memory ∧ c1.rel_base = c.rel_base ∧
    c1.input_queue = c.input_queue ∧ c1.is_finished = false ∧
    c1.ip = c.ip + 2 := by
  obtain ⟨w, n, hw, hop, hn, hps, hc1⟩ := parse_operation_ok c c1 4 ps hp
  have hn1 : n = 1 := by simp [n_params_of] at hn; omega
  subst hn1
  have hstep : c.stepIter
      = Except.ok (some (c1.param_value (ps.getD 0 default)), c1) := by
    unfold stepIter; rw [hp]; norm_num
  refine ⟨?_, ?_, ?_, ?_, ?_, ?_⟩
  · rw [run_succ c fuel hf, hstep]
  · rw [hc1]
  · rw [hc1]
  · rw [hc1]
  · rw [hc1]; exact hf
  · rw [hc1]; show c.ip + (1 + ((1 : Nat) : Int)) = c.ip + 2; norm_num

/-- Witness for C4 at the concrete output instruction `104,7,99`. -/
theorem claim_C4_witness :
    run 1 (IntcodeComputer.new [104, 7, 99])
      = Except.ok (some (RunResult.Output 7,
          { IntcodeComputer.new [104, 7, 99] with ip := 2 })) :=
  (claim_C4 (IntcodeComputer.new [104, 7, 99])
    { IntcodeComputer.new [104, 7, 99] with ip := 2 }
    [⟨ParamMode.immediate, 7⟩] 0 rfl rfl).1

/-- Claim C5: every successful decode advances the instruction pointer
past the opcode word and all parameters (to `ip + 1 + n`) before any
effect runs, touching nothing else; a jump whose condition holds then
overwrites the pointer absolutely with the resolved target
(jump-if-true on a nonzero condition value, jump-if-false on zero), and
a jump whose condition fails keeps the already-advanced pointer and
changes nothing. -/
theorem claim_C5 :
    (∀ (c c1 : IntcodeComputer) (op : Int) (ps : List Param) (n : Nat),
       c.parse_operation = Except.ok ((op, ps), c1) → n_params_of op = some n →
       c1.ip = c.ip + (1 + (n : Int)) ∧ c1.memory = c.memory ∧
       c1.rel_base = c.rel_base ∧ c1.input_queue = c.input_queue ∧
       c1.is_finished = c.is_finished) ∧
    (∀ (c : IntcodeComputer) (ps : List Param),
       (c.param_value (ps.getD 0 default) ≠ 0 →
         c.op_jmp ps = { c with ip := c.param_value (ps.getD 1 default) }) ∧
       (c.param_value (ps.getD 0 default) = 0 → c.op_jmp ps = c)) ∧
    (∀ (c : IntcodeComputer) (ps : List Param),
       (c.param_value (ps.getD 0 default) = 0 →
         c.op_jmn ps = { c with ip := c.param_value (ps.getD 1 default) }) ∧
       (c.param_value (ps.getD 0 default) ≠ 0 → c.op_jmn ps = c)) := by
  refine ⟨fun c c1 op ps n hp hn => ?_, fun c ps => ⟨fun h => ?_, fun h => ?_⟩,
    fun c ps => ⟨fun h => ?_, fun h => ?_⟩⟩
  · obtain ⟨w, n2, hw, hop, hn2, hps, hc1⟩ := parse_operation_ok c c1 op ps hp
    rw [hn] at hn2
    cases hn2
    rw [hc1]
    exact ⟨rfl, rfl, rfl, rfl, rfl⟩
  · unfold op_jmp; rw [if_pos h]
  · unfold op_jmp; rw [if_neg (fun hne => hne h)]
  · unfold op_jmn; rw [if_pos h]
  · unfold op_jmn; rw [if_neg h]

/-- The parameter mode selected by a decimal digit 0, 1 or 2 (used only
to state decoding claims). -/
def mode_of_digit (d : Int) : ParamMode :=
  if d = 0 then ParamMode.position
  else if d = 1 then ParamMode.immediate
  else ParamMode.relative

lemma parse_mode_of_mem (d : Int) (h : d ∈ ([0, 1, 2] : List Int)) :
    parse_mode d = some (mode_of_digit d) := by
  simp only [List.mem_cons, List.not_mem_nil, or_false] at h
  rcases h with rfl | rfl | rfl <;> rfl

lemma parse_mode_of_not_mem (d : Int) (h : d ∉ ([0, 1, 2] : List Int)) :
    parse_mode d = none := by
  simp only [List.mem_cons, List.not_mem_nil, or_false, not_or] at h
  obtain ⟨h0, h1, h2⟩ := h
  unfold parse_mode
  rw [if_neg h0, if_neg h1, if_neg h2]

lemma ediv_ediv_pow (f : Int) (hf : 0 ≤ f) (a b : Nat) :
    f / (10:ℤ) ^ a / (10:ℤ) ^ b = f / (10:ℤ) ^ (a + b) := by
  obtain ⟨m, rfl⟩ := Int.eq_ofNat_of_zero_le hf
  have ha : ((10:ℤ)) ^ a = (((10 ^ a : ℕ)) : ℤ) := by push_cast; ring
  have hb : ((10:ℤ)) ^ b = (((10 ^ b : ℕ)) : ℤ) := by push_cast; ring
  have hab : ((10:ℤ)) ^ (a + b) = (((10 ^ (a + b) : ℕ)) : ℤ) := by push_cast; ring
  rw [ha, hb, hab, ← Int.natCast_div, ← Int.natCast_div, ← Int.natCast_div,
    Nat.div_div_eq_div_mul, ← pow_add]

lemma parse_params_succ (c : IntcodeComputer) (k : Nat) (flags i : Int) :
    c.parse_params (k + 1) flags i =
      match parse_mode (Int.tmod flags 10) with
      | none => Except.error Fatal.unknownParamMode
      | some mode =>
        match c.parse_params k (Int.tdiv flags 10) (i + 1) with
        | Except.error e => Except.error e
        | Except.ok rest =>
            Except.ok ({ mode := mode, value := c.read_at (c.ip + i + 1) } :: rest) := rfl

lemma parse_params_ok_of_valid (c : IntcodeComputer) (n : Nat) :
    ∀ (flags i : Int), 0 ≤ flags →
      (∀ j, j < n → (flags / (10:ℤ) ^ j) % 10 ∈ ([0, 1, 2] : List Int)) →
      ∃ ps, c.parse_params n flags i = Except.ok ps ∧ ps.length = n ∧
        ∀ j, j < n → ps.getD j default =
          { mode := mode_of_digit ((flags / (10:ℤ) ^ j) % 10),
            value := c.read_at (c.ip + i + (j : Int) + 1) } := by
  induction n with
  | zero =>
    intro flags i hf hv
    exact ⟨[], rfl, rfl, fun j hj => absurd hj (Nat.not_lt_zero j)⟩
  | succ k ih =>
    intro flags i hf hv
    have hd0 : Int.tmod flags 10 = (flags / (10:ℤ) ^ 0) % 10 := by
      rw [pow_zero, Int.ediv_one, Int.tmod_eq_emod hf (by norm_num)]
    have hsome : parse_mode (Int.tmod flags 10)
        = some (mode_of_digit ((flags / (10:ℤ) ^ 0) % 10)) := by
      rw [hd0]; exact parse_mode_of_mem _ (hv 0 (Nat.succ_pos k))
    have hdiv : Int.tdiv flags 10 = flags / 10 :=
      Int.tdiv_eq_ediv hf (by norm_num)
    have hdnn : 0 ≤ flags / 10 := Int.ediv_nonneg hf (by norm_num)
    have hpow1 : flags / 10 = flags / (10:ℤ) ^ 1 := by norm_num
    have hvrec : ∀ j, j < k → ((flags / 10) / (10:ℤ) ^ j) % 10 ∈ ([0, 1, 2] : List Int) := by
      intro j hj
      rw [hpow1, ediv_ediv_pow flags hf 1 j, Nat.add_comm 1 j]
      exact hv (j + 1) (by omega)
    obtain ⟨rest, hrest, hlen, hspec⟩ := ih (flags / 10) (i + 1) hdnn hvrec
    refine ⟨{ mode := mode_of_digit ((flags / (10:ℤ) ^ 0) % 10),
              value := c.read_at (c.ip + i + 1) } :: rest, ?_, by simp [hlen], ?_⟩
    · rw [parse_params_succ]
      simp only [hsome, hdiv, hrest]
    · intro j hj
      cases j with
      | zero =>
        simp only [List.getD_cons_zero]
        have : c.ip + i + ((0 : Nat) : Int) + 1 = c.ip + i + 1 := by push_cast; ring
        rw [this]
      | succ j2 =>
        have hs := hspec j2 (by omega)
        simp only [List.getD_cons_succ]
        rw [hs]
        have hm : (flags / 10) / (10:ℤ) ^ j2 = flags / (10:ℤ) ^ (j2 + 1) := by
          rw [hpow1, ediv_ediv_pow flags hf 1 j2, Nat.add_comm 1 j2]
        have ha : c.ip + (i + 1) + ((j2 : Nat) : Int) + 1
            = c.ip + i + (((j2 + 1 : Nat)) : Int) + 1 := by push_cast; ring
        rw [hm, ha]

lemma parse_params_err_of_invalid (c : IntcodeComputer) (n : Nat) :
    ∀ (flags i : Int), 0 ≤ flags →
      (∃ j, j < n ∧ (flags / (10:ℤ) ^ j) % 10 ∉ ([0, 1, 2] : List Int)) →
      c.parse_params n flags i = Except.error Fatal.unknownParamMode := by
  induction n with
  | zero => rintro flags i hf ⟨j, hj, _⟩; exact absurd hj (Nat.not_lt_zero j)
  | succ k ih =>
    rintro flags i hf ⟨j, hj, hbad⟩
    have hd0 : Int.tmod flags 10 = (flags / (10:ℤ) ^ 0) % 10 := by
      rw [pow_zero, Int.ediv_one, Int.tmod_eq_emod hf (by norm_num)]
    have hdiv : Int.tdiv flags 10 = flags / 10 :=
      Int.tdiv_eq_ediv hf (by norm_num)
    have hdnn : 0 ≤ flags / 10 := Int.ediv_nonneg hf (by norm_num)
    have hpow1 : flags / 10 = flags / (10:ℤ) ^ 1 := by norm_num
    by_cases hhead : (flags / (10:ℤ) ^ 0) % 10 ∈ ([0, 1, 2] : List Int)
    · obtain ⟨j2, rfl⟩ : ∃ j2, j = j2 + 1 := by
        cases j with
        | zero => exact absurd hhead hbad
        | succ j2 => exact ⟨j2, rfl⟩
      have hrec : c.parse_params k (flags / 10) (i + 1)
          = Except.error Fatal.unknownParamMode := by
        refine ih (flags / 10) (i + 1) hdnn ⟨j2, by omega, ?_⟩
        rw [hpow1, ediv_ediv_pow flags hf 1 j2, Nat.add_comm 1 j2]
        exact hbad
      rw [parse_params_succ]
      have hsome : parse_mode (Int.tmod flags 10)
          = some (mode_of_digit ((flags / (10:ℤ) ^ 0) % 10)) := by
        rw [hd0]; exact parse_mode_of_mem _ hhead
      simp only [hsome, hdiv, hrec]
    · rw [parse_params_succ]
      have hnone : parse_mode (Int.tmod flags 10) = none := by
        rw [hd0]; exact parse_mode_of_not_mem _ hhead
      simp only [hnone]

lemma parse_operation_eq (c : IntcodeComputer) (w : Int) (hw : c.memory c.ip = some w) :
    c.parse_operation =
      match n_params_of (decode_opcode w) with
      | none => Except.error Fatal.unknownOpcode
      | some n =>
        match c.parse_params n (Int.tdiv w 100) 0 with
        | Except.error e => Except.error e
        | Except.ok ps =>
            Except.ok ((decode_opcode w, ps), { c with ip := c.ip + (1 + (n : Int)) }) := by
  unfold parse_operation; rw [hw]

lemma decode_opcode_of_nonneg (w : Int) (hw : 0 ≤ w) : decode_opcode w = w % 100 := by
  unfold decode_opcode
  rw [Int.tmod_eq_emod hw (by norm_num)]
  have h1 : 0 ≤ w % 100 := Int.emod_nonneg w (by norm_num)
  have h2 : w % 100 < 100 := Int.emod_lt_of_pos w (by norm_num)
  exact Int.emod_eq_of_lt h1 (by omega)

lemma tmod_bounds_of_neg (w : Int) (hw : w < 0) :
    -100 < Int.tmod w 100 ∧ Int.tmod w 100 ≤ 0 := by
  obtain ⟨m, rfl⟩ : ∃ m : Nat, w = Int.negSucc m := by
    cases w with
    | ofNat k => exact absurd hw (by simp)
    | negSucc m => exact ⟨m, rfl⟩
  have he : Int.tmod (Int.negSucc m) 100 = -(((m + 1) % 100 : Nat) : Int) := rfl
  have hlt : (m + 1) % 100 < 100 := Nat.mod_lt (m + 1) (by norm_num)
  rw [he]
  omega

lemma n_params_of_decode_neg (w : Int) (hw : w < 0) :
    n_params_of (decode_opcode w) = none := by
  obtain ⟨h1, h2⟩ := tmod_bounds_of_neg w hw
  unfold decode_opcode n_params_of
  split_ifs with a b c d
  · exact absurd a (by omega)
  · rcases b with b | b | b <;> exact absurd b (by omega)
  · rcases c with c | c <;> exact absurd c (by omega)
  · rcases d with d | d | d | d <;> exact absurd d (by omega)
  · rfl

lemma n_params_of_eq_none (op : Int) (h : op ∉ ([1, 2, 3, 4, 5, 6, 7, 8, 9, 99] : List Int)) :
    n_params_of op = none := by
  simp only [List.mem_cons, List.not_mem_nil, or_false, not_or] at h
  obtain ⟨h1, h2, h3, h4, h5, h6, h7, h8, h9, h99⟩ := h
  unfold n_params_of
  split_ifs <;> first | rfl | tauto

/-- Claim C2: decoding takes the low two decimal digits of a fetched
instruction word as the opcode and the higher-order decimal digits,
least significant first, as the parameter modes; the parameter count is
0 for halt (99), 1 for input (3) / output (4) / base-adjust (9), 2 for
the jumps (5, 6) and 3 for add (1) / multiply (2) / less-than (7) /
equals (8); any other opcode is the fatal unknown-opcode condition
(negative words included), and a mode digit other than 0, 1, 2 is the
fatal unknown-parameter-mode condition. -/
theorem claim_C2 (c : IntcodeComputer) (w : Int) (hw : c.memory c.ip = some w) :
    (0 ≤ w → decode_opcode w = w % 100) ∧
    (n_params_of 99 = some 0 ∧ n_params_of 3 = some 1 ∧ n_params_of 4 = some 1 ∧
     n_params_of 9 = some 1 ∧ n_params_of 5 = some 2 ∧ n_params_of 6 = some 2 ∧
     n_params_of 1 = some 3 ∧ n_params_of 2 = some 3 ∧ n_params_of 7 = some 3 ∧
     n_params_of 8 = some 3 ∧
     ∀ op : Int, op ∉ ([1, 2, 3, 4, 5, 6, 7, 8, 9, 99] : List Int) →
       n_params_of op = none) ∧
    (w < 0 → c.parse_operation = Except.error Fatal.unknownOpcode) ∧
    (0 ≤ w → n_params_of (w % 100) = none →
       c.parse_operation = Except.error Fatal.unknownOpcode) ∧
    (∀ n : Nat, 0 ≤ w → n_params_of (w % 100) = some n →
      ((∀ j, j < n → (w / (10:ℤ) ^ (j + 2)) % 10 ∈ ([0, 1, 2] : List Int)) →
        ∃ ps, c.parse_operation
            = Except.ok ((w % 100, ps), { c with ip := c.ip + (1 + (n : Int)) }) ∧
          ps.length = n ∧
          ∀ j, j < n → ps.getD j default
              = { mode := mode_of_digit ((w / (10:ℤ) ^ (j + 2)) % 10),
                  value := c.read_at (c.ip + (j : Int) + 1) }) ∧
      ((∃ j, j < n ∧ (w / (10:ℤ) ^ (j + 2)) % 10 ∉ ([0, 1, 2] : List Int)) →
        c.parse_operation = Except.error Fatal.unknownParamMode)) := by
  refine ⟨fun h0 => decode_opcode_of_nonneg w h0,
    ⟨rfl, rfl, rfl, rfl, rfl, rfl, rfl, rfl, rfl, rfl, n_params_of_eq_none⟩,
    fun hneg => ?_, fun h0 hn => ?_, fun n h0 hn => ⟨fun hall => ?_, fun hbad => ?_⟩⟩
  · rw [parse_operation_eq c w hw, n_params_of_decode_neg w hneg]
  · have hd : n_params_of (decode_opcode w) = none := by
      rw [decode_opcode_of_nonneg w h0]; exact hn
    rw [parse_operation_eq c w hw, hd]
  · have hd : n_params_of (decode_opcode w) = some n := by
      rw [decode_opcode_of_nonneg w h0]; exact hn
    have htd : Int.tdiv w 100 = w / (10:ℤ) ^ 2 := by
      rw [Int.tdiv_eq_ediv h0 (by norm_num)]; norm_num
    have htdnn : 0 ≤ Int.tdiv w 100 := by
      rw [htd]; exact Int.ediv_nonneg h0 (by positivity)
    have hvalid : ∀ j, j < n →
        ((Int.tdiv w 100) / (10:ℤ) ^ j) % 10 ∈ ([0, 1, 2] : List Int) := by
      intro j hj
      rw [htd, ediv_ediv_pow w h0 2 j, Nat.add_comm 2 j]
      exact hall j hj
    obtain ⟨ps, hps, hlen, hspec⟩ :=
      parse_params_ok_of_valid c n (Int.tdiv w 100) 0 htdnn hvalid
    refine ⟨ps, ?_, hlen, ?_⟩
    · rw [parse_operation_eq c w hw]
      simp only [hd, hps, decode_opcode_of_nonneg w h0, hn]
    · intro j hj
      rw [hspec j hj]
      have hm : (Int.tdiv w 100) / (10:ℤ) ^ j = w / (10:ℤ) ^ (j + 2) := by
        rw [htd, ediv_ediv_pow w h0 2 j, Nat.add_comm 2 j]
      have ha : c.ip + 0 + ((j : Nat) : Int) + 1 = c.ip + ((j : Nat) : Int) + 1 := by ring
      rw [hm, ha]
  · have hd : n_params_of (decode_opcode w) = some n := by
      rw [decode_opcode_of_nonneg w h0]; exact hn
    have htd : Int.tdiv w 100 = w / (10:ℤ) ^ 2 := by
      rw [Int.tdiv_eq_ediv h0 (by norm_num)]; norm_num
    have htdnn : 0 ≤ Int.tdiv w 100 := by
      rw [htd]; exact Int.ediv_nonneg h0 (by positivity)
    obtain ⟨j, hj, hb⟩ := hbad
    have herr : c.parse_params n (Int.tdiv w 100) 0
        = Except.error Fatal.unknownParamMode := by
      refine parse_params_err_of_invalid c n (Int.tdiv w 100) 0 htdnn ⟨j, hj, ?_⟩
      rw [htd, ediv_ediv_pow w h0 2 j, Nat.add_comm 2 j]
      exact hb
    rw [parse_operation_eq c w hw]
    simp only [hd, herr]

/-- Witness for C2: opcode extraction on 1002, the fatal unknown opcode
50, and the fatal unknown parameter-mode digit 3 of the word 301. -/
theorem claim_C2_witness :
    decode_opcode 1002 = 1002 % 100 ∧
    (IntcodeComputer.new [50]).parse_operation = Except.error Fatal.unknownOpcode ∧
    (IntcodeComputer.new [301]).parse_operation = Except.error Fatal.unknownParamMode :=
  ⟨(claim_C2 (IntcodeComputer.new [1002, 4, 3, 4, 33]) 1002 rfl).1 (by norm_num),
   (claim_C2 (IntcodeComputer.new [50]) 50 rfl).2.2.2.1 (by norm_num) (by decide),
   ((claim_C2 (IntcodeComputer.new [301]) 301 rfl).2.2.2.2 3 (by norm_num)
      (by decide)).2 ⟨0, by decide⟩⟩

/-- Claim C9: mode digits beyond the opcode's parameter count are
ignored — decoding reads exactly one mode digit per parameter, so
adding any extra higher-order decimal digits (`t * 10 ^ n`) to the
flags leaves decoding unchanged, and any word whose low two decimal
digits are 99 halts the machine regardless of its higher digits. -/
theorem claim_C9 :
    (∀ (c : IntcodeComputer) (w : Int), c.memory c.ip = some w → 0 ≤ w →
       w % 100 = 99 →
       ∃ c2, c.stepIter = Except.ok (none, c2) ∧ c2.memory = c.memory ∧
         c2.input_queue = c.input_queue ∧ c2.rel_base = c.rel_base ∧
         c2.ip = c.ip + 1 ∧ c2.is_finished = true) ∧
    (∀ (c : IntcodeComputer) (n : Nat) (flags t i : Int), 0 ≤ flags → 0 ≤ t →
       c.parse_params n (flags + t * 10 ^ n) i = c.parse_params n flags i) := by
  constructor
  · intro c w hw h0 h99
    have hdec : decode_opcode w = 99 := by rw [decode_opcode_of_nonneg w h0, h99]
    have hpo : c.parse_operation
        = Except.ok ((99, ([] : List Param)), { c with ip := c.ip + (1 + ((0 : Nat) : Int)) }) := by
      rw [parse_operation_eq c w hw]
      simp only [hdec]
      rfl
    refine ⟨{ { c with ip := c.ip + (1 + ((0 : Nat) : Int)) } with is_finished := true },
      ?_, rfl, rfl, rfl, by norm_num, rfl⟩
    unfold stepIter
    rw [hpo]
    norm_num
  · intro c n
    induction n with
    | zero =>
      intro flags t i hf ht
      rfl
    | succ k ih =>
      intro flags t i hf ht
      have hnn : 0 ≤ flags + t * 10 ^ (k + 1) := by positivity
      have hsplit : flags + t * 10 ^ (k + 1) = flags + t * 10 ^ k * 10 := by ring
      have hmod : Int.tmod (flags + t * 10 ^ (k + 1)) 10 = Int.tmod flags 10 := by
        rw [Int.tmod_eq_emod hnn (by norm_num), Int.tmod_eq_emod hf (by norm_num),
          hsplit, Int.add_mul_emod_self]
      have hdiv : Int.tdiv (flags + t * 10 ^ (k + 1)) 10
          = Int.tdiv flags 10 + t * 10 ^ k := by
        rw [Int.tdiv_eq_ediv hnn (by norm_num), Int.tdiv_eq_ediv hf (by norm_num),
          hsplit, Int.add_mul_ediv_right _ _ (by norm_num : (10:ℤ) ≠ 0)]
      have htdnn : 0 ≤ Int.tdiv flags 10 := by
        rw [Int.tdiv_eq_ediv hf (by norm_num)]
        exact Int.ediv_nonneg hf (by norm_num)
      rw [parse_params_succ, parse_params_succ]
      simp only [hmod, hdiv, ih (Int.tdiv flags 10) t (i + 1) htdnn ht]

/-- Witness for C9: one garbage digit 3 above the single read mode digit
changes nothing in decoding. -/
theorem claim_C9_witness :
    (IntcodeComputer.new [2399]).parse_params 1 (0 + 3 * 10 ^ 1) 0
      = (IntcodeComputer.new [2399]).parse_params 1 0 0 :=
  claim_C9.2 (IntcodeComputer.new [2399]) 1 0 3 0 le_rfl (by norm_num)

/-- Witness for C5: the taken jump-if-true in `1105,1,5,99` lands the
instruction pointer exactly on the immediate target 5. -/
theorem claim_C5_witness :
    (IntcodeComputer.new [1105, 1, 5, 99]).op_jmp
        [⟨ParamMode.immediate, 1⟩, ⟨ParamMode.immediate, 5⟩]
      = { IntcodeComputer.new [1105, 1, 5, 99] with ip := 5 } :=
  ((claim_C5.2.1 (IntcodeComputer.new [1105, 1, 5, 99])
    [⟨ParamMode.immediate, 1⟩, ⟨ParamMode.immediate, 5⟩]).1 (by decide))

/-- Claim C8: for every integer `v`, building the engine from the echo
program `3,0,4,0,99`, submitting `v`, and calling `run` twice yields
`Output v` and then `Finished` — the output equals the submitted input
exactly, for all integers, not only a tested range. -/
theorem claim_C8 (v : Int) :
    ∃ c1, run 2 ((IntcodeComputer.new [3, 0, 4, 0, 99]).input v)
        = Except.ok (some (RunResult.Output v, c1)) ∧
      ∃ c2, run 2 c1 = Except.ok (some (RunResult.Finished, c2)) := by
  refine ⟨{ memory := fun a =>
              if a = 0 then some v
              else (IntcodeComputer.new [3, 0, 4, 0, 99]).memory a,
            input_queue := [], ip := 4, rel_base := 0, is_finished := false },
    ?_, ?_⟩
  · rfl
  · exact ⟨_, rfl⟩

end IntcodeComputer
